import Mathlib

/-!
Verification of the huanggecarbon carbon-dashboard service.

The Python source (modules/common.py, modules/lowcarbon.py,
modules/process_inner_预处理.py) is shallowly embedded below:

* strings are `List Char` / `String`;
* pandas tables are lists of rows of string or raw cells;
* floats are exact rationals `ℚ` (Python `round(x, 2)` is modelled as
  decimal banker's rounding to two places);
* `raise HTTPException(status, detail)` is `Except HttpErr`.

Each section names the Python function it embeds.
-/

namespace HGC

/-- An HTTP error: `fastapi.HTTPException(status_code, detail)`. -/
structure HttpErr where
  status : Nat
  detail : String
  deriving Repr, DecidableEq

instance {ε α : Type} [DecidableEq ε] [DecidableEq α] : DecidableEq (Except ε α)
  | .ok a, .ok b =>
    decidable_of_iff (a = b) ⟨fun h => by rw [h], fun h => by injection h⟩
  | .error a, .error b =>
    decidable_of_iff (a = b) ⟨fun h => by rw [h], fun h => by injection h⟩
  | .ok _, .error _ => isFalse fun h => by injection h
  | .error _, .ok _ => isFalse fun h => by injection h

/- Batteries marks the `Rat` arithmetic `@[irreducible]`; re-allow
unfolding inside this file so that concrete endpoint outputs evaluate
by `decide`/`rfl`. -/
attribute [local semireducible] Rat.mul Rat.add Rat.sub Rat.inv Rat.ofScientific

/-! ## Column normalizer: `common.norm`

```python
def norm(s: str) -> str:
    s = str(s)
    s = s.replace("：", ":").replace("（", "(").replace("）", ")")
    s = re.sub(r"\(.*?\)", "", s)
    s = re.sub(r"\s+", "", s)
    return s.strip()
```
-/

/-- The three full-width replacements `：→:`, `（→(`, `）→)` of `norm`
(each pattern is a single character, so the substring replace is
character-wise). -/
def replFW (c : Char) : Char :=
  if c = '：' then ':'
  else if c = '（' then '('
  else if c = '）' then ')'
  else c

/-- Python `\s` (and `str.strip`'s whitespace class) on the characters
this code can meet: ASCII whitespace, the C1/Unicode spaces matched by
`re` in str mode. -/
def isPySpace (c : Char) : Bool :=
  c = ' ' || c = '\t' || c = '\n' || c = '\r' ||
  c.toNat = 0x0b || c.toNat = 0x0c ||
  (0x1c ≤ c.toNat && c.toNat ≤ 0x1f) ||
  c.toNat = 0x85 || c.toNat = 0xa0 || c.toNat = 0x1680 ||
  (0x2000 ≤ c.toNat && c.toNat ≤ 0x200a) ||
  c.toNat = 0x2028 || c.toNat = 0x2029 || c.toNat = 0x202f ||
  c.toNat = 0x205f || c.toNat = 0x3000

mutual

/-- Embeds `re.sub(r"\(.*?\)", "", s)`, scanning outside a candidate match:
the regex engine tries each position left to right; a match can only
start at `'('`. -/
def rmOut : List Char → List Char
  | [] => []
  | c :: rest =>
    if c = '(' then rmIn [c] rest
    else c :: rmOut rest

/-- Embeds `re.sub(r"\(.*?\)", "", s)` after an opening `'('`: the lazy `.*?`
stops at the first `')'`; `.` cannot cross `'\n'`, and (because no `')'`
precedes the newline) no position inside the pending buffer can start a
match either, so on `'\n'` the whole buffer is emitted unchanged.
`buf` holds the pending characters in reverse. -/
def rmIn (buf : List Char) : List Char → List Char
  | [] => buf.reverse
  | c :: rest =>
    if c = ')' then rmOut rest
    else if c = '\n' then buf.reverse ++ '\n' :: rmOut rest
    else rmIn (c :: buf) rest

end

/-- Embeds `common.norm` on a character list: full-width replacement, then
non-greedy parenthetical deletion, then `\s+` deletion (which also makes
the final `strip()` a no-op). -/
def normL (l : List Char) : List Char :=
  ((l.map replFW) |> rmOut).filter (fun c => !isPySpace c)

/-- Embeds `common.norm` on strings. -/
def norm (s : String) : String :=
  ⟨normL s.data⟩

/-- A character list in which every `')'` comes before every `'('`:
exactly the lists on which `re.sub(r"\(.*?\)", "", ·)` finds no match
(when no newline is present). -/
def goodSplit (cs : List Char) : Prop :=
  ∃ u v, cs = u ++ v ∧ '(' ∉ u ∧ ')' ∉ v

/-! ## Period resolver: `common.TIME_MAP` / `process_inner_预处理._period_suffix`

```python
TIME_MAP = {1: "日", 2: "周", 3: "月", 4: "年"}

def _period_suffix(time_type: int) -> str:
    if time_type not in TIME_MAP:
        raise HTTPException(status_code=400, detail="timeType 只能是 1(日)/2(周)/3(月)/4(年)")
    return TIME_MAP[time_type]
```
-/

/-- Embeds `TIME_MAP` as a partial map on integers (`dict.get`). -/
def TIME_MAP (code : Int) : Option String :=
  if code = 1 then some "日"
  else if code = 2 then some "周"
  else if code = 3 then some "月"
  else if code = 4 then some "年"
  else none

/-- Embeds `_period_suffix`: resolve a period code or fail with HTTP 400. -/
def periodSuffix (timeType : Int) : Except HttpErr String :=
  match TIME_MAP timeType with
  | some s => .ok s
  | none => .error ⟨400, "timeType must be 1/2/3/4"⟩

/-! ## Substring utilities (Python `pat in hay`, `str.find`) -/

/-- Embeds `hay.startswith(pat)` on character lists. -/
def isPrefixL : List Char → List Char → Bool
  | [], _ => true
  | _ :: _, [] => false
  | p :: ps, c :: cs => p = c && isPrefixL ps cs

/-- Python `pat in hay` (contiguous substring). -/
def containsSub (hay pat : List Char) : Bool :=
  match hay with
  | [] => isPrefixL pat []
  | _ :: rest => isPrefixL pat hay || containsSub rest pat

/-- Python `pat in hay` on strings. -/
def containsS (hay pat : String) : Bool :=
  containsSub hay.data pat.data

/-- Python `hay.find(pat)`: index of the first occurrence. -/
def findSub (hay pat : List Char) : Option Nat :=
  match hay with
  | [] => if isPrefixL pat [] then some 0 else none
  | _ :: rest =>
    if isPrefixL pat hay then some 0
    else (findSub rest pat).map (· + 1)

/-! ## Table loader: `common.auto_header`

```python
def auto_header(df0, scan_rows=50):
    probe = df0.head(scan_rows).fillna("").astype(str)
    for ridx in probe.index:
        vals = [norm(v) for v in probe.loc[ridx].tolist()]
        joined = "|".join(vals)
        if any(norm(k) in joined for k in TIME_ALIASES) and ("范围" in joined or "Scope" in joined or "scope" in joined):
            df = df0.copy()
            df.columns = vals
            df = df.loc[ridx+1:].reset_index(drop=True)
            return df
    df = df0.copy()
    df.columns = [norm(x) for x in df.columns]
    return df
```

A DataFrame read with `header=None` is modelled as column names plus
rows of string cells (`fillna("").astype(str)` makes every cell a
string; an empty cell is `""`). -/

structure Table where
  cols : List String
  rows : List (List String)
  deriving Repr, DecidableEq

def TIME_ALIASES : List String :=
  ["周期", "Period", "period", "频率", "时间", "timeType", "TimeType"]

/-- The header-detection test `auto_header` applies to one probe row. -/
def rowIsHeader (r : List String) : Bool :=
  let joined := String.intercalate "|" (r.map norm)
  (TIME_ALIASES.any fun k => containsS joined (norm k)) &&
  (containsS joined "范围" || containsS joined "Scope" || containsS joined "scope")

/-- Scan up to `fuel` leading rows for a header row; on a hit return the
normalized row together with the remaining rows below it. -/
def scanHeader : List (List String) → Nat → Option (List String × List (List String))
  | _, 0 => none
  | [], _ => none
  | r :: rest, fuel + 1 =>
    if rowIsHeader r then some (r.map norm, rest)
    else scanHeader rest fuel

/-- Embeds `auto_header` with its default `scan_rows = 50`: use the detected
header row and drop everything above and including it, or — when no row
within the scan bound matches — fall back to the original table with
normalized column names (no error is raised). -/
def autoHeader (t : Table) : Table :=
  match scanHeader t.rows 50 with
  | some (vals, rest) => ⟨vals, rest⟩
  | none => ⟨t.cols.map norm, t.rows⟩

/-! ## Text report parser: `lowcarbon._section`, `_must_float`,
`_parse_realtime_top5`, `_parse_evaluation`

The regexes are embedded as deterministic matchers.  Wherever the
pattern pieces have disjoint follow-sets (`\s*` before `\d`, `[\d,]+`
before `\.`, …) the greedy quantifiers need no backtracking; the one
lazy group `(.*?)` is implemented by trying the shortest extension
first.  `re.IGNORECASE` only affects cased ASCII letters, so every
literal is compared after ASCII lowercasing. -/

/-- Embeds `_normalize_text`: canonicalize full-width colon, dashes and slash
(each pattern is a single character). -/
def normalizeChar (c : Char) : Char :=
  if c = '：' then ':'
  else if c = '—' then '-'
  else if c = '–' then '-'
  else if c = '－' then '-'
  else if c = '／' then '/'
  else c

def normalizeText (cs : List Char) : List Char :=
  cs.map normalizeChar

/-- Embeds `_section(text, start_key, end_key)`: slice between the markers of
the normalized text; a missing start marker is HTTP 500, a missing end
marker means "to the end". -/
def sectionSlice (text startKey : List Char) (endKey : Option (List Char)) :
    Except HttpErr (List Char) :=
  let t := normalizeText text
  match findSub t startKey with
  | none => .error ⟨500, "section start marker not found"⟩
  | some s =>
    let tail := t.drop s
    match endKey with
    | none => .ok tail
    | some ek =>
      match findSub ((t.drop s).drop startKey.length) ek with
      | none => .ok tail
      | some e0 => .ok (tail.take (startKey.length + e0))

/-- ASCII lowercasing, the effect of `re.IGNORECASE` on literals. -/
def lowerAscii (c : Char) : Char :=
  if 'A' ≤ c && c ≤ 'Z' then Char.ofNat (c.toNat + 32) else c

/-- Match a literal (case-insensitively on ASCII letters), returning the
rest of the input. -/
def matchLitCI : List Char → List Char → Option (List Char)
  | [], cs => some cs
  | _ :: _, [] => none
  | p :: ps, c :: cs =>
    if lowerAscii c = lowerAscii p then matchLitCI ps cs else none

/-- Greedy `\s*`: drop the maximal whitespace run. -/
def skipWs : List Char → List Char
  | [] => []
  | c :: rest => if isPySpace c then skipWs rest else c :: rest

/-- Python `\d` (the data uses ASCII digits). -/
def isDigitC (c : Char) : Bool :=
  '0' ≤ c && c ≤ '9'

/-- Greedy `\d+`/`\d*` run: maximal digit prefix and the rest. -/
def takeDigits : List Char → List Char × List Char
  | [] => ([], [])
  | c :: rest =>
    if isDigitC c then
      let (ds, r) := takeDigits rest
      (c :: ds, r)
    else ([], c :: rest)

/-- Greedy `[\d,]+` run. -/
def takeNumChars : List Char → List Char × List Char
  | [] => ([], [])
  | c :: rest =>
    if isDigitC c || c = ',' then
      let (ds, r) := takeNumChars rest
      (c :: ds, r)
    else ([], c :: rest)

def digitsToNat (ds : List Char) : Nat :=
  ds.foldl (fun n c => n * 10 + (c.toNat - 48)) 0

/-- Embeds `([\d,]+(?:\.\d+)?)`: the captured numeric literal and the rest.
The optional fraction is taken exactly when a dot with at least one
digit follows (the only way the regex can proceed). -/
def matchNumber (cs : List Char) : Option (List Char × List Char) :=
  let (ip, r1) := takeNumChars cs
  if ip.isEmpty then none
  else
    match r1 with
    | '.' :: r2 =>
      let (fp, r3) := takeDigits r2
      if fp.isEmpty then some (ip, r1)
      else some (ip ++ '.' :: fp, r3)
    | _ => some (ip, r1)

/-- Embeds `(?:kgCO2e|tCO2e)` under `IGNORECASE`. -/
def matchUnit (cs : List Char) : Option (List Char) :=
  match matchLitCI "kgCO2e".data cs with
  | some r => some r
  | none => matchLitCI "tCO2e".data cs

/-- Embeds `(?:天|日|d)` under `IGNORECASE`. -/
def matchDayUnit (cs : List Char) : Option (List Char) :=
  match matchLitCI "天".data cs with
  | some r => some r
  | none =>
    match matchLitCI "日".data cs with
    | some r => some r
    | none => matchLitCI "d".data cs

/-- Embeds `(?:年|yr)` under `IGNORECASE`. -/
def matchYearUnit (cs : List Char) : Option (List Char) :=
  match matchLitCI "年".data cs with
  | some r => some r
  | none => matchLitCI "yr".data cs

/-- The ranked-entry tail after the lazy label:
`\s*-\s*([\d,]+(?:\.\d+)?)\s*(?:kgCO2e|tCO2e)\s*/\s*(?:天|日|d)`.
Returns the captured numeric literal and the rest after the match. -/
def matchTop5Tail (cs : List Char) : Option (List Char × List Char) :=
  match skipWs cs with
  | '-' :: r2 =>
    match matchNumber (skipWs r2) with
    | none => none
    | some (num, r4) =>
      match matchUnit (skipWs r4) with
      | none => none
      | some r6 =>
        match skipWs r6 with
        | '/' :: r8 =>
          match matchDayUnit (skipWs r8) with
          | none => none
          | some r9 => some (num, r9)
        | _ => none
  | _ => none

/-- The lazy `(.*?)` label: try the tail at the current position first
(shortest match wins); `.` never crosses a newline.  Returns
(label, numeric capture, rest). -/
def matchLabel (acc : List Char) : List Char → Option (List Char × List Char × List Char)
  | [] =>
    match matchTop5Tail [] with
    | some (num, rest) => some (acc.reverse, num, rest)
    | none => none
  | c :: rest =>
    match matchTop5Tail (c :: rest) with
    | some (num, r) => some (acc.reverse, num, r)
    | none => if c = '\n' then none else matchLabel (c :: acc) rest

/-- One raw ranked-entry match: `rank`, label capture, numeric capture. -/
structure RawEntry where
  rank : Nat
  label : List Char
  num : List Char
  deriving Repr, DecidableEq

/-- Try the full ranked-entry pattern
`第\s*(\d+)\s*名\s*:\s*(.*?)\s*-\s*…` anchored at the current position;
on success also return the rest of the input after the match. -/
def matchTop5At (cs : List Char) : Option (RawEntry × List Char) :=
  match matchLitCI "第".data cs with
  | none => none
  | some r1 =>
    let (ds, r3) := takeDigits (skipWs r1)
    if ds.isEmpty then none
    else
      match matchLitCI "名".data (skipWs r3) with
      | none => none
      | some r5 =>
        match skipWs r5 with
        | ':' :: r7 =>
          match matchLabel [] (skipWs r7) with
          | none => none
          | some (lab, num, rest) => some (⟨digitsToNat ds, lab, num⟩, rest)
        | _ => none

/-- Embeds `re.findall` for the ranked-entry pattern: try every position left
to right, resuming after each match.  Every match consumes at least one
character, so `fuel = length of the input` is enough. -/
def findAllTop5 : Nat → List Char → List RawEntry
  | 0, _ => []
  | _, [] => []
  | fuel + 1, c :: rest =>
    match matchTop5At (c :: rest) with
    | some (e, after) => e :: findAllTop5 fuel after
    | none => findAllTop5 fuel rest

/-- Python `str.strip()`. -/
def stripEnds (cs : List Char) : List Char :=
  ((cs.dropWhile isPySpace).reverse.dropWhile isPySpace).reverse

/-- Embeds `_must_float`: drop commas, strip, convert to a number or fail with
HTTP 500.  Modelled on the digit/comma/dot literals the capture groups
can produce (`float` accepts `"12."` and `".5"`, needs at least one
digit and at most one dot). -/
def mustFloat (s : String) : Except HttpErr ℚ :=
  let cs := stripEnds (s.data.filter fun c => c ≠ ',')
  match cs.splitOn '.' with
  | [ip] =>
    if !ip.isEmpty && ip.all isDigitC then .ok (digitsToNat ip)
    else .error ⟨500, "numeric conversion failed"⟩
  | [ip, fp] =>
    if (!ip.isEmpty || !fp.isEmpty) && ip.all isDigitC && fp.all isDigitC then
      .ok (mkRat (digitsToNat (ip ++ fp)) (10 ^ fp.length))
    else .error ⟨500, "numeric conversion failed"⟩
  | _ => .error ⟨500, "numeric conversion failed"⟩

/-- One parsed ranked entry (a row of the DataFrame built in
`_parse_realtime_top5`). -/
structure Entry where
  rank : Nat
  process : String
  emission : ℚ
  deriving Repr, DecidableEq

/-- Ascending-by-rank comparison, the key of `df.sort_values("rank")`. -/
def entryLE (a b : Entry) : Prop :=
  a.rank ≤ b.rank

instance : DecidableRel entryLE :=
  fun a b => Nat.decLe a.rank b.rank

instance : IsTotal Entry entryLE :=
  ⟨fun a b => Nat.le_total a.rank b.rank⟩

instance : IsTrans Entry entryLE :=
  ⟨fun _ _ _ => Nat.le_trans⟩

/-- Embeds `df.sort_values("rank")` as a stable ascending sort (identical to
pandas output whenever the ranks are distinct). -/
def sortEntries (l : List Entry) : List Entry :=
  List.insertionSort entryLE l

/-- Embeds `Series.map(_must_float)`: apply an `Except`-valued function to every
element, propagating the first error. -/
def mapME (f : RawEntry → Except HttpErr Entry) : List RawEntry → Except HttpErr (List Entry)
  | [] => .ok []
  | a :: as => do
    let b ← f a
    let bs ← mapME f as
    .ok (b :: bs)

/-- Building one DataFrame row: `rank` is already a digit string
(`astype(int)` cannot fail) and `emission` goes through `_must_float`. -/
def entryOfRaw (m : RawEntry) : Except HttpErr Entry := do
  let q ← mustFloat ⟨m.num⟩
  pure ⟨m.rank, ⟨m.label⟩, q⟩

/-- Embeds `_parse_realtime_top5`: slice the ranking section, find every
ranked-entry match, fail with HTTP 500 when there is none, convert the
numeric captures, sort ascending by rank and keep the first five. -/
def parseRealtimeTop5 (text : String) : Except HttpErr (List Entry) := do
  let sec ← sectionSlice text.data "各工艺单元日碳排量排名".data
      (some "原水提升泵房分析".data)
  let ms := findAllTop5 sec.length sec
  if ms.isEmpty then
    .error ⟨500, "no realtime ranking entries parsed"⟩
  else
    let entries ← mapME entryOfRaw ms
    .ok ((sortEntries entries).take 5)

/-! ### `_parse_evaluation` -/

/-- Embeds `绿电碳减排\s*:\s*([\d,]+(?:\.\d+)?)\s*(?:kgCO2e|tCO2e)` anchored at
the current position; returns the numeric capture. -/
def matchGreenAt (cs : List Char) : Option (List Char) :=
  match matchLitCI "绿电碳减排".data cs with
  | none => none
  | some r1 =>
    match skipWs r1 with
    | ':' :: r3 =>
      match matchNumber (skipWs r3) with
      | none => none
      | some (num, r5) =>
        match matchUnit (skipWs r5) with
        | none => none
        | some _ => some num
    | _ => none

/-- Embeds `总降碳潜力\s*:\s*([\d,]+(?:\.\d+)?)\s*(?:kgCO2e|tCO2e)\s*/\s*(?:年|yr)`
anchored at the current position. -/
def matchTotalAt (cs : List Char) : Option (List Char) :=
  match matchLitCI "总降碳潜力".data cs with
  | none => none
  | some r1 =>
    match skipWs r1 with
    | ':' :: r3 =>
      match matchNumber (skipWs r3) with
      | none => none
      | some (num, r5) =>
        match matchUnit (skipWs r5) with
        | none => none
        | some r6 =>
          match skipWs r6 with
          | '/' :: r8 =>
            match matchYearUnit (skipWs r8) with
            | none => none
            | some _ => some num
          | _ => none
    | _ => none

/-- Embeds `re.search`: first position (left to right) where the anchored
matcher succeeds. -/
def searchScan (f : List Char → Option (List Char)) : List Char → Option (List Char)
  | [] => f []
  | c :: rest =>
    match f (c :: rest) with
    | some x => some x
    | none => searchScan f rest

/-- Embeds `绿色低碳等级\s*:\s*([^\s\r\n]+)` anchored at the current position;
returns the captured grade and the rest after the match. -/
def matchGradeAt (cs : List Char) : Option (List Char × List Char) :=
  match matchLitCI "绿色低碳等级".data cs with
  | none => none
  | some r1 =>
    match skipWs r1 with
    | ':' :: r3 =>
      let r4 := skipWs r3
      let g := r4.takeWhile fun c => !isPySpace c
      if g.isEmpty then none else some (g, r4.drop g.length)
    | _ => none

/-- Embeds `re.findall` for the grade pattern. -/
def findAllGrades : Nat → List Char → List (List Char)
  | 0, _ => []
  | _, [] => []
  | fuel + 1, c :: rest =>
    match matchGradeAt (c :: rest) with
    | some (g, after) => g :: findAllGrades fuel after
    | none => findAllGrades fuel rest

/-- The three fields `_parse_evaluation` returns. -/
structure EvalOut where
  green : ℚ
  total : ℚ
  grade : String
  deriving Repr, DecidableEq

/-- Embeds `_parse_evaluation`: slice the evaluation section, run the three
independent extractions, require all of them (the *last* grade
occurrence wins), else fail with HTTP 500. -/
def parseEvaluation (text : String) : Except HttpErr EvalOut := do
  let sec ← sectionSlice text.data "绿色低碳评估".data (some "分析完成!".data)
  let g? := searchScan matchGreenAt sec
  let t? := searchScan matchTotalAt sec
  let gs := findAllGrades sec.length sec
  match g?, t?, gs.getLast? with
  | some gstr, some tstr, some grade => do
    let g ← mustFloat ⟨gstr⟩
    let t ← mustFloat ⟨tstr⟩
    .ok ⟨g, t, ⟨grade⟩⟩
  | _, _, _ => .error ⟨500, "evaluation fields missing"⟩

/-! ## Response formatter: `common.format_float_2d`

```python
def format_float_2d(x):
    if isinstance(x, dict):
        return {k: format_float_2d(v) for k, v in x.items()}
    if isinstance(x, list):
        return [format_float_2d(v) for v in x]
    if isinstance(x, tuple):
        return tuple(format_float_2d(v) for v in x)
    if isinstance(x, (float, np.floating, Decimal)):
        return round(float(x), 2)
    return x
```

Python values are embedded as `PyVal`; `float`, `np.floating` and
`Decimal` all collapse into the `float` leaf (exact rationals), and
`round(x, 2)` is decimal banker's rounding to two places. -/

/-- Round half to even at integer precision (Python `round`): with
`n = ⌊q⌋` (Euclidean division by the positive denominator) and
fractional remainder `r/den`, compare `r/den` with `1/2` by
cross-multiplication. -/
def roundHalfEven (q : ℚ) : Int :=
  let n := Int.ediv q.num q.den
  let r := q.num - n * q.den
  if 2 * r < (q.den : Int) then n
  else if (q.den : Int) < 2 * r then n + 1
  else if n % 2 = 0 then n else n + 1

/-- Python `round(x, 2)`. -/
def roundQ2 (q : ℚ) : ℚ :=
  mkRat (roundHalfEven (q * 100)) 100

/-- A Python value as the endpoints produce them. -/
inductive PyVal where
  | float (q : ℚ)
  | int (n : Int)
  | str (s : String)
  | bool (b : Bool)
  | none
  | list (l : List PyVal)
  | tup (l : List PyVal)
  | dict (l : List (String × PyVal))

mutual

/-- Embeds `format_float_2d`, following the Python `isinstance` dispatch
order: dict, list, tuple, float-family, everything else unchanged. -/
def format_float_2d : PyVal → PyVal
  | .dict kvs => .dict (fmtKVs kvs)
  | .list l => .list (fmtList l)
  | .tup l => .tup (fmtList l)
  | .float q => .float (roundQ2 q)
  | x => x

def fmtList : List PyVal → List PyVal
  | [] => []
  | v :: vs => format_float_2d v :: fmtList vs

def fmtKVs : List (String × PyVal) → List (String × PyVal)
  | [] => []
  | (k, v) :: vs => (k, format_float_2d v) :: fmtKVs vs

end

mutual

/-- Modelled from the spec: "recursively traverses nested
mapping/sequence structures and rounds any floating-point leaf to 2
decimal places; non-numeric leaves pass through unchanged". -/
def specRound2 : PyVal → PyVal
  | .list l => .list (specRound2List l)
  | .tup l => .tup (specRound2List l)
  | .dict kvs => .dict (specRound2KVs kvs)
  | leaf => if let .float q := leaf then .float (roundQ2 q) else leaf

def specRound2List : List PyVal → List PyVal
  | [] => []
  | v :: vs => specRound2 v :: specRound2List vs

def specRound2KVs : List (String × PyVal) → List (String × PyVal)
  | [] => []
  | (k, v) :: vs => (k, specRound2 v) :: specRound2KVs vs

end

/-! ## Pretreatment endpoints:
`process_inner_预处理.load_unit_table`, `pretreat_info`, `pretreat_trend`

The sheet 《水厂内_分单元》 is embedded as a list of raw rows with a
fixed schema: the segment and unit labels plus the twelve
`合计/电耗/药耗 × 日/周/月/年` cells (the columns `load_unit_table`
coerces; a cell that pandas cannot parse as a number is `text`/`blank`
and coerces to `0.0`; numeric-looking strings are modelled as `num`). -/

/-- A raw spreadsheet cell before `pd.to_numeric(errors="coerce")`. -/
inductive RawCell where
  | num (q : ℚ)
  | text (s : String)
  | blank
  deriving Repr, DecidableEq

/-- Embeds `pd.to_numeric(col, errors="coerce").fillna(0.0)` on one cell. -/
def cellToNum : RawCell → ℚ
  | .num q => q
  | _ => 0

/-- The four period column suffixes 日/周/月/年. -/
inductive Per where
  | d | w | m | y
  deriving Repr, DecidableEq

/-- Embeds `TIME_COL_MAP` (and `TIME_MAP`): which column family a `timeType`
selects; `none` exactly off `{1,2,3,4}`. -/
def perOfTimeType (t : Int) : Option Per :=
  if t = 1 then some .d
  else if t = 2 then some .w
  else if t = 3 then some .m
  else if t = 4 then some .y
  else none

/-- One raw row of 《水厂内_分单元》. -/
structure RawUnitRow where
  seg : String
  unitName : String
  total : Per → RawCell
  elec : Per → RawCell
  chem : Per → RawCell

/-- One row after `load_unit_table`'s numeric coercion. -/
structure UnitRow where
  seg : String
  unitName : String
  total : Per → ℚ
  elec : Per → ℚ
  chem : Per → ℚ

/-- Embeds `load_unit_table`: coerce the numeric columns (cached load
elided — the cache is load-once and the file static). -/
def loadUnitRow (r : RawUnitRow) : UnitRow :=
  ⟨r.seg, r.unitName,
   fun p => cellToNum (r.total p),
   fun p => cellToNum (r.elec p),
   fun p => cellToNum (r.chem p)⟩

def loadUnitTable (t : List RawUnitRow) : List UnitRow :=
  t.map loadUnitRow

/-- The `data` payload of `/api/process/inner/预处理/info`
(`totalCarbonEmissions`, `distributionWellPreOzoneContactTankCE`,
`dosingRoomCE`), after `format_float_2d`. -/
structure InfoOut where
  total : ℚ
  well : ℚ
  dosing : ℚ
  deriving Repr, DecidableEq

/-- Embeds `pretreat_info`: validate `timeType`, filter rows with
工艺段 = 预处理段 (404 when empty), sum the selected 合计 column over
them, take the single-row values for the two units (`0.0` when the row
is absent), and round the payload to two decimals. -/
def pretreatInfo (timeType : Int) (raw : List RawUnitRow) : Except HttpErr InfoOut :=
  match perOfTimeType timeType with
  | Option.none => .error ⟨400, "timeType must be 1/2/3/4"⟩
  | some p =>
    let df := loadUnitTable raw
    let pre := df.filter fun r => r.seg = "预处理段"
    if pre.isEmpty then .error ⟨404, "segment 预处理段 not found"⟩
    else
      let total := (pre.map fun r => r.total p).sum
      let well :=
        match pre.filter fun r => r.unitName = "配水井和预臭氧接触池" with
        | [] => 0
        | r :: _ => r.total p
      let dosing :=
        match pre.filter fun r => r.unitName = "加药间" with
        | [] => 0
        | r :: _ => r.total p
      .ok ⟨roundQ2 total, roundQ2 well, roundQ2 dosing⟩

/-- The three series values of `/api/process/inner/预处理/trend`
(总碳排/电耗碳排/药耗碳排), after `format_float_2d`; the chart
scaffolding around them is elided. -/
structure TrendOut where
  total : ℚ
  elec : ℚ
  chem : ℚ
  deriving Repr, DecidableEq

/-- Embeds `pretreat_trend`: validate `timeType` (400), select the pretreatment
rows (500 when the segment is absent), pick the unit by `qtype`
(substring containment, 400 on a bad `qtype`), fail with 404 when the
unit matches no row, and sum the three column families. -/
def pretreatTrend (qtype timeType : Int) (raw : List RawUnitRow) :
    Except HttpErr TrendOut := do
  let p ← match perOfTimeType timeType with
    | some p => Except.ok p
    | Option.none => .error ⟨400, "timeType must be 1/2/3/4"⟩
  let df := loadUnitTable raw
  let pre := df.filter fun r => r.seg = "预处理段"
  if pre.isEmpty then .error ⟨500, "segment 预处理段 not found"⟩
  else do
    let target ←
      if qtype = 1 then
        Except.ok (pre.filter fun r => containsS r.unitName "配水井和预臭氧接触池")
      else if qtype = 2 then
        Except.ok (pre.filter fun r => containsS r.unitName "加药间")
      else .error ⟨400, "qtype must be 1 or 2"⟩
    if target.isEmpty then .error ⟨404, "unit rows not found"⟩
    else
      .ok ⟨roundQ2 (target.map fun r => r.total p).sum,
           roundQ2 (target.map fun r => r.elec p).sum,
           roundQ2 (target.map fun r => r.chem p).sum⟩

/-! ## Concrete fixtures used in the claim theorems -/

/-- A table whose rows hold no header row (no period-alias token at
all), as an export without the expected structure would produce. -/
def c3NoHeaderTable : Table :=
  ⟨["A", "B"], [["x", "y"], ["1", "2"]]⟩

/-- A table with a title row above the real header row. -/
def c3Table : Table :=
  ⟨["0", "1"], [["月度碳排统计表", ""], ["周期", "范围1(吨)"], ["1", "100"]]⟩

/-- The spec's ranking example, lines in rank order. -/
def rankedTextA : String :=
  "各工艺单元日碳排量排名\n第1名: 原水提升泵房 - 41532.84 kgCO2e/天\n第2名: 取水泵站 - 12345.67 kgCO2e/天\n原水提升泵房分析"

/-- The spec's ranking example, lines in swapped order. -/
def rankedTextB : String :=
  "各工艺单元日碳排量排名\n第2名: 取水泵站 - 12345.67 kgCO2e/天\n第1名: 原水提升泵房 - 41532.84 kgCO2e/天\n原水提升泵房分析"

/-- The parsed entries of the spec's ranking example. -/
def rankedEx : List Entry :=
  [⟨1, "原水提升泵房", mkRat 4153284 100⟩, ⟨2, "取水泵站", mkRat 1234567 100⟩]

/-- A ranking section with six matching lines in jumbled order. -/
def rankedTextSix : String :=
  "各工艺单元日碳排量排名\n第6名: 回用水泵 - 6.6 kgCO2e/天\n第3名: 送水泵房 - 3.3 kgCO2e/天\n第1名: 原水提升泵房 - 1.1 kgCO2e/天\n第5名: 加氯间 - 5.5 kgCO2e/天\n第2名: 取水泵站 - 2.2 kgCO2e/天\n第4名: 臭氧车间 - 4.4 kgCO2e/天\n原水提升泵房分析"

/-- A ranking section with no line matching the ranked-entry template. -/
def rankedTextNone : String :=
  "前言 各工艺单元日碳排量排名 本期无数据 原水提升泵房分析"

/-- An evaluation report with all three fields and two grade markers. -/
def evalTextEx : String :=
  "绿色低碳评估\n绿电碳减排: 39,520 kgCO2e\n总降碳潜力：7,922,454 kgCO2e/年\n绿色低碳等级: 中\n复核 绿色低碳等级: 高\n分析完成!"

/-- The unit table of the C8 example: exactly the two pretreatment
rows, with year totals 120.0 and 80.0. -/
def c8Rows : List RawUnitRow :=
  [⟨"预处理段", "加药间", fun _ => .num 120, fun _ => .num 0, fun _ => .num 0⟩,
   ⟨"预处理段", "配水井和预臭氧接触池", fun _ => .num 80, fun _ => .num 0, fun _ => .num 0⟩]

/-- A pretreatment table in which only the dosing-room unit appears. -/
def c9Rows : List RawUnitRow :=
  [⟨"预处理段", "加药间", fun _ => .num 120, fun _ => .num 1, fun _ => .num 2⟩]

/-! # Theorems -/

/-! ## Helper lemmas about `auto_header` -/

theorem scanHeader_none (rows : List (List String)) :
    ∀ fuel, (∀ r ∈ rows.take fuel, rowIsHeader r = false) →
      scanHeader rows fuel = none := by
  induction rows with
  | nil => intro fuel _; cases fuel <;> rfl
  | cons r rest ih =>
    intro fuel h
    cases fuel with
    | zero => rfl
    | succ f =>
      have hr : rowIsHeader r = false := h r (by simp)
      simp only [scanHeader, hr, Bool.false_eq_true, if_false]
      exact ih f fun a ha => h a (by simp [List.take_succ_cons, ha])

theorem scanHeader_found (i : Nat) :
    ∀ (rows : List (List String)) (fuel : Nat) (row : List String),
      rows[i]? = some row → i < fuel →
      (∀ r ∈ rows.take i, rowIsHeader r = false) →
      rowIsHeader row = true →
      scanHeader rows fuel = some (row.map norm, rows.drop (i + 1)) := by
  induction i with
  | zero =>
    intro rows fuel row hget hlt _ hrow
    cases rows with
    | nil => simp at hget
    | cons r rest =>
      cases fuel with
      | zero => omega
      | succ f =>
        simp only [List.getElem?_cons_zero, Option.some.injEq] at hget
        subst hget
        simp [scanHeader, hrow]
  | succ i ih =>
    intro rows fuel row hget hlt hprev hrow
    cases rows with
    | nil => simp at hget
    | cons r rest =>
      cases fuel with
      | zero => omega
      | succ f =>
        have hr : rowIsHeader r = false := hprev r (by simp [List.take_succ_cons])
        simp only [scanHeader, hr, Bool.false_eq_true, if_false]
        have hget' : rest[i]? = some row := by simpa using hget
        have hprev' : ∀ a ∈ rest.take i, rowIsHeader a = false :=
          fun a ha => hprev a (by simp [List.take_succ_cons, ha])
        rw [ih rest f row hget' (by omega) hprev' hrow]
        simp

/-! ## Helper lemmas about `norm` -/

theorem replFW_idem (c : Char) : replFW (replFW c) = replFW c := by
  by_cases h1 : c = '：'
  · subst h1; decide
  · by_cases h2 : c = '（'
    · subst h2; decide
    · by_cases h3 : c = '）'
      · subst h3; decide
      · simp [replFW, h1, h2, h3]

theorem replFW_nl (c : Char) (h : replFW c = '\n') : c = '\n' := by
  by_cases h1 : c = '：'
  · subst h1; simp [replFW] at h
  · by_cases h2 : c = '（'
    · subst h2; simp [replFW] at h
    · by_cases h3 : c = '）'
      · subst h3; simp [replFW] at h
      · simpa [replFW, h1, h2, h3] using h

theorem rm_mem (cs : List Char) :
    (∀ a ∈ rmOut cs, a ∈ cs) ∧ ∀ buf, ∀ a ∈ rmIn buf cs, a ∈ buf ∨ a ∈ cs := by
  induction cs with
  | nil =>
    refine ⟨fun a ha => ?_, fun buf a ha => ?_⟩
    · simp [rmOut] at ha
    · simp only [rmIn] at ha
      exact Or.inl (List.mem_reverse.mp ha)
  | cons c rest ih =>
    refine ⟨fun a ha => ?_, fun buf a ha => ?_⟩
    · by_cases hc : c = '('
      · subst hc
        simp only [rmOut, if_pos rfl] at ha
        rcases ih.2 ['('] a ha with h | h
        · simp only [List.mem_singleton] at h
          simp [h]
        · exact List.mem_cons_of_mem _ h
      · simp only [rmOut, if_neg hc] at ha
        rcases List.mem_cons.mp ha with h | h
        · simp [h]
        · exact List.mem_cons_of_mem _ (ih.1 a h)
    · by_cases hc : c = ')'
      · subst hc
        simp only [rmIn, if_pos rfl] at ha
        exact Or.inr (List.mem_cons_of_mem _ (ih.1 a ha))
      · by_cases hn : c = '\n'
        · subst hn
          simp only [rmIn, if_neg hc, if_pos rfl] at ha
          rcases List.mem_append.mp ha with h | h
          · exact Or.inl (List.mem_reverse.mp h)
          · rcases List.mem_cons.mp h with h | h
            · exact Or.inr (by simp [h])
            · exact Or.inr (List.mem_cons_of_mem _ (ih.1 a h))
        · simp only [rmIn, if_neg hc, if_neg hn] at ha
          rcases ih.2 (c :: buf) a ha with h | h
          · rcases List.mem_cons.mp h with h | h
            · exact Or.inr (by simp [h])
            · exact Or.inl h
          · exact Or.inr (List.mem_cons_of_mem _ h)

theorem rm_no_close (cs : List Char) :
    ')' ∉ cs → rmOut cs = cs ∧ ∀ buf, rmIn buf cs = buf.reverse ++ cs := by
  induction cs with
  | nil =>
    intro _
    exact ⟨by simp [rmOut], fun buf => by simp [rmIn]⟩
  | cons c rest ih =>
    intro h
    have hc : c ≠ ')' := fun e => h (by simp [e])
    have h' : ')' ∉ rest := fun m => h (List.mem_cons_of_mem _ m)
    obtain ⟨ihOut, ihIn⟩ := ih h'
    constructor
    · by_cases hop : c = '('
      · subst hop
        simp only [rmOut, if_pos rfl, ihIn ['(']]
        rfl
      · simp only [rmOut, if_neg hop, ihOut]
    · intro buf
      by_cases hn : c = '\n'
      · subst hn
        simp [rmIn, hc, ihOut]
      · simp only [rmIn, if_neg hc, if_neg hn, ihIn (c :: buf)]
        simp

theorem rmOut_append (u : List Char) :
    ∀ v, '(' ∉ u → rmOut (u ++ v) = u ++ rmOut v := by
  induction u with
  | nil => intro v _; simp
  | cons c us ih =>
    intro v h
    have hc : c ≠ '(' := fun e => h (by simp [e])
    have h' : '(' ∉ us := fun m => h (List.mem_cons_of_mem _ m)
    simp only [List.cons_append, rmOut, if_neg hc]
    simp [ih v h']

theorem rm_good (cs : List Char) :
    '\n' ∉ cs → goodSplit (rmOut cs) ∧ ∀ buf, ')' ∉ buf → goodSplit (rmIn buf cs) := by
  induction cs with
  | nil =>
    intro _
    refine ⟨⟨[], [], by simp [rmOut], by simp, by simp⟩,
      fun buf hb => ⟨[], buf.reverse, by simp [rmIn], by simp, ?_⟩⟩
    simpa [List.mem_reverse] using hb
  | cons c rest ih =>
    intro h
    have hn : c ≠ '\n' := fun e => h (by simp [e])
    have h' : '\n' ∉ rest := fun m => h (List.mem_cons_of_mem _ m)
    obtain ⟨ihOut, ihIn⟩ := ih h'
    constructor
    · by_cases hop : c = '('
      · subst hop
        simp only [rmOut, if_pos rfl]
        exact ihIn ['('] (by simp)
      · simp only [rmOut, if_neg hop]
        obtain ⟨u, v, he, hu, hv⟩ := ihOut
        refine ⟨c :: u, v, by rw [he]; rfl, ?_, hv⟩
        intro m
        rcases List.mem_cons.mp m with e | m
        · exact hop e.symm
        · exact hu m
    · intro buf hb
      by_cases hcl : c = ')'
      · subst hcl
        simp only [rmIn, if_pos rfl]
        exact ihOut
      · simp only [rmIn, if_neg hcl, if_neg hn]
        refine ihIn (c :: buf) ?_
        intro m
        rcases List.mem_cons.mp m with e | m
        · exact hcl e.symm
        · exact hb m

theorem goodSplit_rmOut_eq {cs : List Char} (h : goodSplit cs) : rmOut cs = cs := by
  obtain ⟨u, v, rfl, hu, hv⟩ := h
  rw [rmOut_append u v hu, (rm_no_close v hv).1]

theorem goodSplit_filter (p : Char → Bool) {cs : List Char} (h : goodSplit cs) :
    goodSplit (cs.filter p) := by
  obtain ⟨u, v, rfl, hu, hv⟩ := h
  exact ⟨u.filter p, v.filter p, by rw [List.filter_append],
    fun m => hu (List.mem_of_mem_filter m),
    fun m => hv (List.mem_of_mem_filter m)⟩

theorem map_eq_self_of {f : Char → Char} (l : List Char) (h : ∀ c ∈ l, f c = c) :
    l.map f = l := by
  induction l with
  | nil => rfl
  | cons c cs ih =>
    simp only [List.map_cons, h c (by simp), List.cons.injEq, true_and]
    exact ih fun a ha => h a (List.mem_cons_of_mem _ ha)

theorem filter_self_idem (p : Char → Bool) (l : List Char) :
    (l.filter p).filter p = l.filter p := by
  induction l with
  | nil => rfl
  | cons c cs ih =>
    by_cases hc : p c
    · simp [List.filter_cons, hc, ih]
    · simp [List.filter_cons, hc, ih]

theorem normL_idem (l : List Char) (h : '\n' ∉ l) : normL (normL l) = normL l := by
  have h' : '\n' ∉ l.map replFW := by
    intro m
    obtain ⟨a, ha, hfa⟩ := List.mem_map.mp m
    rw [replFW_nl a hfa] at ha
    exact h ha
  have hgood : goodSplit (rmOut (l.map replFW)) := (rm_good (l.map replFW) h').1
  have hself : ∀ c ∈ normL l, replFW c = c := by
    intro c hc
    have hc1 : c ∈ rmOut (l.map replFW) := List.mem_of_mem_filter hc
    have hc2 : c ∈ l.map replFW := (rm_mem (l.map replFW)).1 c hc1
    obtain ⟨a, _, rfl⟩ := List.mem_map.mp hc2
    exact replFW_idem a
  have hgy : goodSplit (normL l) := goodSplit_filter _ hgood
  show ((normL l).map replFW |> rmOut).filter (fun c => !isPySpace c) = normL l
  rw [map_eq_self_of (normL l) hself, goodSplit_rmOut_eq hgy]
  exact filter_self_idem _ _

theorem norm_idem_no_newline (x : String) (h : '\n' ∉ x.data) :
    norm (norm x) = norm x := by
  show (⟨normL (normL x.data)⟩ : String) = ⟨normL x.data⟩
  exact congrArg String.mk (normL_idem x.data h)

/-! ## Helper lemmas about the period resolver -/

theorem periodSuffix_ok_cases (c : Int) (l : String) (h : periodSuffix c = .ok l) :
    (c = 1 ∧ l = "日") ∨ (c = 2 ∧ l = "周") ∨ (c = 3 ∧ l = "月") ∨ (c = 4 ∧ l = "年") := by
  unfold periodSuffix TIME_MAP at h
  by_cases h1 : c = 1
  · simp [h1] at h; simp [h1, h.symm]
  · by_cases h2 : c = 2
    · simp [h1, h2] at h; simp [h2, h.symm]
    · by_cases h3 : c = 3
      · simp [h1, h2, h3] at h; simp [h3, h.symm]
      · by_cases h4 : c = 4
        · simp [h1, h2, h3, h4] at h; simp [h4, h.symm]
        · simp [h1, h2, h3, h4] at h

/-! ## Claim theorems -/

/-- C1: for every valid period code in 1–4, `_period_suffix` returns
exactly one of the four canonical labels 日/周/月/年; the mapping is a
total bijection (injective on valid codes, every label reached), and
every integer code outside 1–4 fails with HTTP 400 (InvalidArgument). -/
theorem period_resolver_total_bijection_and_rejects_invalid :
    (∀ c : Int, (c = 1 ∨ c = 2 ∨ c = 3 ∨ c = 4) →
      ∃ l, periodSuffix c = .ok l ∧ (l = "日" ∨ l = "周" ∨ l = "月" ∨ l = "年")) ∧
    (∀ c₁ c₂ : Int, ∀ l₁ l₂ : String,
      periodSuffix c₁ = .ok l₁ → periodSuffix c₂ = .ok l₂ → l₁ = l₂ → c₁ = c₂) ∧
    (∀ l : String, (l = "日" ∨ l = "周" ∨ l = "月" ∨ l = "年") →
      ∃ c : Int, (c = 1 ∨ c = 2 ∨ c = 3 ∨ c = 4) ∧ periodSuffix c = .ok l) ∧
    (∀ c : Int, ¬(c = 1 ∨ c = 2 ∨ c = 3 ∨ c = 4) →
      periodSuffix c = .error ⟨400, "timeType must be 1/2/3/4"⟩) := by
  refine ⟨?_, ?_, ?_, ?_⟩
  · intro c hc
    rcases hc with rfl | rfl | rfl | rfl
    · exact ⟨"日", rfl, by decide⟩
    · exact ⟨"周", rfl, by decide⟩
    · exact ⟨"月", rfl, by decide⟩
    · exact ⟨"年", rfl, by decide⟩
  · intro c₁ c₂ l₁ l₂ h₁ h₂ he
    rcases periodSuffix_ok_cases c₁ l₁ h₁ with ⟨rfl, rfl⟩ | ⟨rfl, rfl⟩ | ⟨rfl, rfl⟩ | ⟨rfl, rfl⟩ <;>
      rcases periodSuffix_ok_cases c₂ l₂ h₂ with ⟨rfl, rfl⟩ | ⟨rfl, rfl⟩ | ⟨rfl, rfl⟩ | ⟨rfl, rfl⟩ <;>
      first | rfl | (exact absurd he (by decide))
  · intro l hl
    rcases hl with rfl | rfl | rfl | rfl
    · exact ⟨1, by norm_num, rfl⟩
    · exact ⟨2, by norm_num, rfl⟩
    · exact ⟨3, by norm_num, rfl⟩
    · exact ⟨4, by norm_num, rfl⟩
  · intro c hc
    push_neg at hc
    obtain ⟨h1, h2, h3, h4⟩ := hc
    simp [periodSuffix, TIME_MAP, h1, h2, h3, h4]

/-- C1 witness: the theorem applied at valid code 2 and invalid code 7. -/
theorem period_resolver_witness :
    (∃ l, periodSuffix 2 = .ok l ∧ (l = "日" ∨ l = "周" ∨ l = "月" ∨ l = "年")) ∧
    periodSuffix 7 = .error ⟨400, "timeType must be 1/2/3/4"⟩ :=
  ⟨period_resolver_total_bijection_and_rejects_invalid.1 2 (by norm_num),
   period_resolver_total_bijection_and_rejects_invalid.2.2.2 7 (by norm_num)⟩

/-- C2 counterexample: the claim fails on the code in two ways.
`norm` keeps the (half-width image of the) full-width colon, so
`norm "范围 1：" = "范围1:" ≠ "范围1" = norm "范围1"`; and `norm` is not
idempotent on every string: for `"(\n)"` the newline blocks the lazy
parenthetical regex (`.` does not match `\n`), whitespace removal then
glues `"()"`, and a second pass deletes it. -/
theorem norm_claim_counterexample :
    norm "范围 1：" ≠ norm "范围1" ∧ norm (norm "(\n)") ≠ norm "(\n)" :=
  ⟨by decide, by decide⟩

/-- C2 amended: `norm "范围1(吨)" = norm "范围1"` holds, but
`norm "范围 1："` is `"范围1:"` (the colon survives, normalized to
half-width, so it is not equal to `norm "范围1"` — alias matching in the
code works by substring containment, not equality); and `norm` is
idempotent on every string containing no newline character. -/
theorem norm_collapse_and_idem_amended :
    norm "范围1(吨)" = norm "范围1" ∧
    norm "范围 1：" = "范围1:" ∧
    ∀ x : String, '\n' ∉ x.data → norm (norm x) = norm x :=
  ⟨by decide, by decide, norm_idem_no_newline⟩

/-- C2 witness: idempotence applied at the concrete newline-free input
`"范围 1："`. -/
theorem norm_collapse_and_idem_witness :
    '\n' ∉ ("范围 1：" : String).data ∧ norm (norm "范围 1：") = norm "范围 1：" :=
  ⟨by decide, norm_collapse_and_idem_amended.2.2 "范围 1：" (by decide)⟩

/-- C3 counterexample: on a table none of whose leading rows holds both
a period-alias and a scope-alias token, `auto_header` does NOT fail —
there is no error path at all (its Lean embedding is total into
`Table`); it silently returns the table with normalized original column
names, contradicting the claim that header auto-detection "fails with a
DataSourceError rather than returning a table". -/
theorem auto_header_counterexample :
    autoHeader c3NoHeaderTable = ⟨["A", "B"], [["x", "y"], ["1", "2"]]⟩ := by
  decide

/-- C3 amended: when no row within the 50-row scan bound passes the
header test, `auto_header` returns the table unchanged except that the
original column names are normalized (no error); when a header row is
found, that (normalized) row becomes the header and all rows above and
including it are dropped. -/
theorem auto_header_amended :
    (∀ t : Table, (∀ r ∈ t.rows.take 50, rowIsHeader r = false) →
      autoHeader t = ⟨t.cols.map norm, t.rows⟩) ∧
    (∀ (t : Table) (i : Nat) (row : List String),
      t.rows[i]? = some row → i < 50 →
      (∀ r ∈ t.rows.take i, rowIsHeader r = false) →
      rowIsHeader row = true →
      autoHeader t = ⟨row.map norm, t.rows.drop (i + 1)⟩) := by
  constructor
  · intro t h
    unfold autoHeader
    rw [scanHeader_none t.rows 50 h]
  · intro t i row hget hlt hprev hrow
    unfold autoHeader
    rw [scanHeader_found i t.rows 50 row hget hlt hprev hrow]

/-- C3 witness: the amended theorem applied to the concrete table whose
second row is the real header: the title row and the header row are
dropped and the normalized header becomes the column list. -/
theorem auto_header_witness :
    autoHeader c3Table = ⟨["周期", "范围1"], [["1", "100"]]⟩ := by
  have h := auto_header_amended.2 c3Table 1 ["周期", "范围1(吨)"]
    (by decide) (by norm_num) (by decide) (by decide)
  rw [h]
  decide

/-! ## Helper lemmas about `_parse_realtime_top5` -/

theorem parseRealtimeTop5_ok (text : String) (l : List Entry)
    (h : parseRealtimeTop5 text = .ok l) :
    ∃ sec entries,
      sectionSlice text.data "各工艺单元日碳排量排名".data
        (some "原水提升泵房分析".data) = .ok sec ∧
      findAllTop5 sec.length sec ≠ [] ∧
      mapME entryOfRaw (findAllTop5 sec.length sec) = .ok entries ∧
      l = (sortEntries entries).take 5 := by
  unfold parseRealtimeTop5 at h
  cases hsec : sectionSlice text.data "各工艺单元日碳排量排名".data
      (some "原水提升泵房分析".data) with
  | error e => rw [hsec] at h; simp [Bind.bind, Except.bind] at h
  | ok sec =>
    rw [hsec] at h
    simp only [Bind.bind, Except.bind] at h
    by_cases hms : (findAllTop5 sec.length sec).isEmpty
    · rw [if_pos hms] at h; simp at h
    · rw [if_neg hms] at h
      cases hmap : mapME entryOfRaw (findAllTop5 sec.length sec) with
      | error e => rw [hmap] at h; simp at h
      | ok entries =>
        rw [hmap] at h
        simp only [Except.ok.injEq] at h
        exact ⟨sec, entries, rfl, by simpa using hms, hmap, h.symm⟩

theorem mapME_ok_length (f : RawEntry → Except HttpErr Entry) :
    ∀ (ms : List RawEntry) (es : List Entry),
      mapME f ms = .ok es → es.length = ms.length := by
  intro ms
  induction ms with
  | nil =>
    intro es h
    simp only [mapME, Except.ok.injEq] at h
    simp [h.symm]
  | cons m rest ih =>
    intro es h
    simp only [mapME, Bind.bind] at h
    cases hf : f m with
    | error e => rw [hf] at h; simp [Except.bind] at h
    | ok b =>
      rw [hf] at h
      cases hrest : mapME f rest with
      | error e => rw [hrest] at h; simp [Except.bind] at h
      | ok bs =>
        rw [hrest] at h
        simp only [Except.bind, Except.ok.injEq] at h
        rw [← h]
        simp [ih bs hrest]

/-! ## Claim theorems for the ranked extraction -/

/-- C4: on the spec's example lines — in either input order — the
ranked extraction returns the two entries ascending by rank with the
comma-stripped numeric values; and in general every successful parse is
sorted ascending by rank. -/
theorem ranked_extraction_sorted_claim :
    parseRealtimeTop5 rankedTextA = .ok rankedEx ∧
    parseRealtimeTop5 rankedTextB = .ok rankedEx ∧
    ∀ text l, parseRealtimeTop5 text = .ok l → List.Sorted entryLE l := by
  refine ⟨by decide, by decide, ?_⟩
  intro text l h
  obtain ⟨sec, entries, hsec, hne, hmap, rfl⟩ := parseRealtimeTop5_ok text l h
  exact List.Pairwise.sublist (List.take_sublist 5 _)
    (List.sorted_insertionSort entryLE entries)

/-- C4 witness: the sortedness statement applied at the swapped-order
example text. -/
theorem ranked_extraction_sorted_witness :
    parseRealtimeTop5 rankedTextB = .ok rankedEx ∧ List.Sorted entryLE rankedEx :=
  ⟨ranked_extraction_sorted_claim.2.1,
   ranked_extraction_sorted_claim.2.2 rankedTextB rankedEx
     ranked_extraction_sorted_claim.2.1⟩

/-- C5: when the ranking section holds no line matching the
ranked-entry template, `_parse_realtime_top5` fails with HTTP 500, and
a successful parse never returns an empty list. -/
theorem ranked_extraction_no_match_claim :
    (∀ text sec,
      sectionSlice text.data "各工艺单元日碳排量排名".data
        (some "原水提升泵房分析".data) = .ok sec →
      findAllTop5 sec.length sec = [] →
      parseRealtimeTop5 text = .error ⟨500, "no realtime ranking entries parsed"⟩) ∧
    ∀ text l, parseRealtimeTop5 text = .ok l → l ≠ [] := by
  constructor
  · intro text sec hsec hfind
    unfold parseRealtimeTop5
    rw [hsec]
    simp [Bind.bind, Except.bind, hfind]
  · intro text l h
    obtain ⟨sec, entries, hsec, hne, hmap, rfl⟩ := parseRealtimeTop5_ok text l h
    have hlen : entries.length = (findAllTop5 sec.length sec).length :=
      mapME_ok_length _ _ _ hmap
    have hpos : 0 < entries.length := by
      rw [hlen]
      exact List.length_pos.mpr hne
    have h5 : 0 < ((sortEntries entries).take 5).length := by
      rw [List.length_take, sortEntries, List.length_insertionSort]
      omega
    exact List.length_pos.mp h5

/-- C5 witness: HTTP 500 at a concrete text whose ranking section holds
no matching line. -/
theorem ranked_extraction_no_match_witness :
    parseRealtimeTop5 rankedTextNone =
      .error ⟨500, "no realtime ranking entries parsed"⟩ :=
  ranked_extraction_no_match_claim.1 rankedTextNone
    "各工艺单元日碳排量排名 本期无数据 ".data (by decide) (by decide)

set_option maxRecDepth 8000 in
/-- C10: the ranked extraction keeps at most five entries: every
successful result has length ≤ 5 and is the 5-prefix of the stable
ascending sort of all matches, so every kept entry's rank is ≤ every
dropped entry's rank; on a concrete six-line section the five smallest
ranks are returned and rank 6 is silently dropped. -/
theorem ranked_extraction_top5_bound_claim :
    (∀ text l, parseRealtimeTop5 text = .ok l → l.length ≤ 5) ∧
    (∀ text l, parseRealtimeTop5 text = .ok l →
      ∃ entries, l = (sortEntries entries).take 5 ∧
        ∀ a ∈ l, ∀ b ∈ (sortEntries entries).drop 5, a.rank ≤ b.rank) ∧
    parseRealtimeTop5 rankedTextSix =
      .ok [⟨1, "原水提升泵房", mkRat 11 10⟩, ⟨2, "取水泵站", mkRat 22 10⟩,
           ⟨3, "送水泵房", mkRat 33 10⟩, ⟨4, "臭氧车间", mkRat 44 10⟩,
           ⟨5, "加氯间", mkRat 55 10⟩] := by
  refine ⟨?_, ?_, by decide⟩
  · intro text l h
    obtain ⟨sec, entries, hsec, hne, hmap, rfl⟩ := parseRealtimeTop5_ok text l h
    simp [List.length_take]
  · intro text l h
    obtain ⟨sec, entries, hsec, hne, hmap, rfl⟩ := parseRealtimeTop5_ok text l h
    refine ⟨entries, rfl, ?_⟩
    intro a ha b hb
    have hs : List.Pairwise entryLE (sortEntries entries) :=
      List.sorted_insertionSort entryLE entries
    rw [← List.take_append_drop 5 (sortEntries entries)] at hs
    exact (List.pairwise_append.mp hs).2.2 a ha b hb

/-! ## Claim theorems for the evaluation extraction -/

/-- C6: over the evaluation section, the three extractions are
independent; a successful call returns the green-power value, the
total-potential value and the grade with the *last* grade occurrence
winning, and if any of the three fields is absent the whole call fails
with HTTP 500 (no partial result). -/
theorem evaluation_extraction_claim :
    (∀ text sec,
      sectionSlice text.data "绿色低碳评估".data (some "分析完成!".data) = .ok sec →
      (searchScan matchGreenAt sec = none ∨ searchScan matchTotalAt sec = none ∨
        (findAllGrades sec.length sec).getLast? = none) →
      parseEvaluation text = .error ⟨500, "evaluation fields missing"⟩) ∧
    (∀ text sec gstr tstr glast g t,
      sectionSlice text.data "绿色低碳评估".data (some "分析完成!".data) = .ok sec →
      searchScan matchGreenAt sec = some gstr →
      searchScan matchTotalAt sec = some tstr →
      (findAllGrades sec.length sec).getLast? = some glast →
      mustFloat ⟨gstr⟩ = .ok g →
      mustFloat ⟨tstr⟩ = .ok t →
      parseEvaluation text = .ok ⟨g, t, ⟨glast⟩⟩) := by
  constructor
  · intro text sec hsec hmiss
    unfold parseEvaluation
    rw [hsec]
    simp only [Bind.bind, Except.bind]
    cases h1 : searchScan matchGreenAt sec <;>
      cases h2 : searchScan matchTotalAt sec <;>
        cases h3 : (findAllGrades sec.length sec).getLast? <;>
          simp_all
  · intro text sec gstr tstr glast g t hsec h1 h2 h3 hg ht
    unfold parseEvaluation
    rw [hsec]
    simp only [Bind.bind, Except.bind]
    rw [h1, h2, h3]
    simp only [Bind.bind, Except.bind]
    rw [hg, ht]

/-- C6 witness: the success case applied at the concrete report with
two grade markers (中 then 高): the last one is returned alongside the
two comma-stripped values. -/
theorem evaluation_extraction_witness :
    parseEvaluation evalTextEx = .ok ⟨39520, 7922454, "高"⟩ :=
  evaluation_extraction_claim.2 evalTextEx
    "绿色低碳评估\n绿电碳减排: 39,520 kgCO2e\n总降碳潜力:7,922,454 kgCO2e/年\n绿色低碳等级: 中\n复核 绿色低碳等级: 高\n".data
    "39,520".data "7,922,454".data "高".data 39520 7922454
    (by decide) (by decide) (by decide) (by decide) (by decide) (by decide)

/-- C10 witness: the length bound applied at the six-line example. -/
theorem ranked_extraction_top5_bound_witness :
    ([⟨1, "原水提升泵房", mkRat 11 10⟩, ⟨2, "取水泵站", mkRat 22 10⟩,
      ⟨3, "送水泵房", mkRat 33 10⟩, ⟨4, "臭氧车间", mkRat 44 10⟩,
      ⟨5, "加氯间", mkRat 55 10⟩] : List Entry).length ≤ 5 :=
  ranked_extraction_top5_bound_claim.1 rankedTextSix _
    ranked_extraction_top5_bound_claim.2.2

/-! ## Claim theorems for the response formatter -/

mutual

theorem fmtV_eq_spec : ∀ v, format_float_2d v = specRound2 v
  | .float _ => rfl
  | .int _ => rfl
  | .str _ => rfl
  | .bool _ => rfl
  | .none => rfl
  | .list l => by
    rw [format_float_2d, specRound2, fmtL_eq_spec l]
  | .tup l => by
    rw [format_float_2d, specRound2, fmtL_eq_spec l]
  | .dict kvs => by
    rw [format_float_2d, specRound2, fmtKV_eq_spec kvs]

theorem fmtL_eq_spec : ∀ l, fmtList l = specRound2List l
  | [] => rfl
  | v :: vs => by
    rw [fmtList, specRound2List, fmtV_eq_spec v, fmtL_eq_spec vs]

theorem fmtKV_eq_spec : ∀ l, fmtKVs l = specRound2KVs l
  | [] => rfl
  | (k, v) :: vs => by
    rw [fmtKVs, specRound2KVs, fmtV_eq_spec v, fmtKV_eq_spec vs]

end

/-- C7: `format_float_2d` on the spec's example rounds the float leaves
to two decimals (`1.23456 ↦ 1.23`, and `round(1.005, 2) = 1.0` under
round-half-to-even on the exact decimal) while the string leaf is kept
untouched; in general it coincides with the specification-side
leaf-mapper (round every float leaf, return every other leaf
unchanged), and string leaves are never mutated. -/
theorem response_formatter_round2_claim :
    format_float_2d (.dict [("a", .float (mkRat 123456 100000)),
        ("b", .list [.float (mkRat 1005 1000), .str "kept as-is"])]) =
      .dict [("a", .float (mkRat 123 100)),
             ("b", .list [.float 1, .str "kept as-is"])] ∧
    (∀ v, format_float_2d v = specRound2 v) ∧
    (∀ s, format_float_2d (.str s) = .str s) :=
  ⟨rfl, fmtV_eq_spec, fun _ => rfl⟩

/-! ## Claim theorems for the pretreatment aggregation -/

/-- The loaded (coerced) pretreatment rows, filtered and projected,
coincide with coercing the raw cells rowwise. -/
theorem loadUnitTable_filter_map (raw : List RawUnitRow) (f : UnitRow → ℚ)
    (g : RawUnitRow → ℚ) (hfg : ∀ r, f (loadUnitRow r) = g r) :
    (((loadUnitTable raw).filter fun r => r.seg = "预处理段").map f) =
      ((raw.filter fun r => r.seg = "预处理段").map g) := by
  unfold loadUnitTable
  rw [List.filter_map]
  rw [List.map_map]
  exact List.map_congr_left fun r _ => hfg r

/-- C8: on the table holding exactly the two pretreatment rows with
year totals 120.0 and 80.0, the info endpoint's total is 200.0 (the sum
over the segment filter); in general the reported total is the plain
sum of the selected period column over the rows with
工艺段 = 预处理段, after each raw cell is coerced (non-numeric and
missing cells count as 0.0), rounded to two decimals by the response
formatter. -/
theorem category_aggregator_sum_claim :
    pretreatInfo 4 c8Rows = .ok ⟨200, 80, 120⟩ ∧
    (∀ (raw : List RawUnitRow) (t : Int) (p : Per) (out : InfoOut),
      perOfTimeType t = some p →
      pretreatInfo t raw = .ok out →
      out.total = roundQ2
        (((raw.filter fun r => r.seg = "预处理段").map
          fun r => cellToNum (r.total p)).sum)) := by
  refine ⟨by decide, ?_⟩
  intro raw t p out hper hok
  unfold pretreatInfo at hok
  rw [hper] at hok
  by_cases hpre : ((loadUnitTable raw).filter fun r => r.seg = "预处理段").isEmpty
  · simp [hpre] at hok
  · simp only [hpre, Bool.false_eq_true, if_false, Except.ok.injEq] at hok
    rw [← hok]
    have hmap := loadUnitTable_filter_map raw (fun r => r.total p)
      (fun r => cellToNum (r.total p)) (fun r => rfl)
    simp only [← hmap]

/-- C8 witness: the general sum statement applied at the concrete
two-row table with `timeType = 4`. -/
theorem category_aggregator_sum_witness :
    (⟨200, 80, 120⟩ : InfoOut).total = roundQ2
      (((c8Rows.filter fun r => r.seg = "预处理段").map
        fun r => cellToNum (r.total .y)).sum) :=
  category_aggregator_sum_claim.2 c8Rows 4 .y ⟨200, 80, 120⟩ (by decide)
    category_aggregator_sum_claim.1

/-- A loaded row witnessing the pretreatment segment keeps the filter
nonempty. -/
theorem pre_filter_nonempty {raw : List RawUnitRow} {r0 : RawUnitRow}
    (hr0 : r0 ∈ raw) (hseg : r0.seg = "预处理段") :
    ((loadUnitTable raw).filter fun r => r.seg = "预处理段").isEmpty = false := by
  have hmem : loadUnitRow r0 ∈ (loadUnitTable raw).filter fun r => r.seg = "预处理段" := by
    refine List.mem_filter.mpr ⟨?_, ?_⟩
    · exact List.mem_map_of_mem loadUnitRow hr0
    · simp [loadUnitRow, hseg]
  rcases h : ((loadUnitTable raw).filter fun r => r.seg = "预处理段") with _ | _
  · rw [h] at hmem
    simp at hmem
  · rw [h]
    rfl

/-- C9: the empty-filter policy is endpoint-specific and both sides
hold on the code: when no pretreatment row carries the
配水井和预臭氧接触池 unit, the info endpoint still succeeds and reports
`0.0` for that unit silently, whereas the trend endpoint for the same
unit (`qtype = 1`) fails with HTTP 404. -/
theorem empty_filter_policy_claim :
    (∀ (raw : List RawUnitRow) (t : Int) (p : Per) (r0 : RawUnitRow),
      perOfTimeType t = some p →
      r0 ∈ raw → r0.seg = "预处理段" →
      (∀ r ∈ raw, r.seg = "预处理段" → r.unitName ≠ "配水井和预臭氧接触池") →
      ∃ out, pretreatInfo t raw = .ok out ∧ out.well = 0) ∧
    (∀ (raw : List RawUnitRow) (t : Int) (p : Per) (r0 : RawUnitRow),
      perOfTimeType t = some p →
      r0 ∈ raw → r0.seg = "预处理段" →
      (∀ r ∈ raw, r.seg = "预处理段" →
        containsS r.unitName "配水井和预臭氧接触池" = false) →
      pretreatTrend 1 t raw = .error ⟨404, "unit rows not found"⟩) := by
  constructor
  · intro raw t p r0 hper hr0 hseg hnone
    have hpre := pre_filter_nonempty hr0 hseg
    have hwell : (((loadUnitTable raw).filter fun r => r.seg = "预处理段").filter
        fun r => r.unitName = "配水井和预臭氧接触池") = [] := by
      rw [List.filter_eq_nil_iff]
      intro x hx
      obtain ⟨hx1, hx2⟩ := List.mem_filter.mp hx
      obtain ⟨r1, hr1, rfl⟩ := List.mem_map.mp hx1
      have hs1 : r1.seg = "预处理段" := by simpa [loadUnitRow] using hx2
      have hne := hnone r1 hr1 hs1
      simp [loadUnitRow, hne]
    unfold pretreatInfo
    rw [hper]
    simp only [hpre, Bool.false_eq_true, if_false, hwell]
    refine ⟨_, rfl, ?_⟩
    show roundQ2 0 = 0
    decide
  · intro raw t p r0 hper hr0 hseg hnone
    have hpre := pre_filter_nonempty hr0 hseg
    have htarget : (((loadUnitTable raw).filter fun r => r.seg = "预处理段").filter
        fun r => containsS r.unitName "配水井和预臭氧接触池") = [] := by
      rw [List.filter_eq_nil_iff]
      intro x hx
      obtain ⟨hx1, hx2⟩ := List.mem_filter.mp hx
      obtain ⟨r1, hr1, rfl⟩ := List.mem_map.mp hx1
      have hs1 : r1.seg = "预处理段" := by simpa [loadUnitRow] using hx2
      have hne := hnone r1 hr1 hs1
      simp [loadUnitRow, hne]
    unfold pretreatTrend
    rw [hper]
    simp only [Bind.bind, Except.bind, hpre, Bool.false_eq_true, if_false, htarget]
    simp

/-- C9 witness: both policies at the concrete one-row table holding
only the dosing room: info succeeds with a silent 0.0, trend answers
HTTP 404. -/
theorem empty_filter_policy_witness :
    (∃ out, pretreatInfo 4 c9Rows = .ok out ∧ out.well = 0) ∧
    pretreatTrend 1 4 c9Rows = .error ⟨404, "unit rows not found"⟩ :=
  ⟨empty_filter_policy_claim.1 c9Rows 4 .y ⟨"预处理段", "加药间",
      fun _ => .num 120, fun _ => .num 1, fun _ => .num 2⟩
      (by decide) (by simp [c9Rows]) rfl (by decide),
   empty_filter_policy_claim.2 c9Rows 4 .y ⟨"预处理段", "加药间",
      fun _ => .num 120, fun _ => .num 1, fun _ => .num 2⟩
      (by decide) (by simp [c9Rows]) rfl (by decide)⟩

end HGC
